import Mathlib

/-!
Verification development for the MathExprParser repository (class
MathInterpreter, files math_interpreter.h / math_interpreter.cpp).

The C++ code is shallowly embedded as executable Lean definitions:

* C++ double values are modelled as exact (unnormalized) fractions `Dbl`
  (an Int numerator / Int denominator pair).  Every arithmetic step the
  claims exercise is exact in IEEE double arithmetic (small integers,
  decimal literals with six fractional digits), so the fraction model
  coincides with the C++ value on those runs.  `Dbl.toRat` maps a value
  into ℚ for the statements.  A denominator of 0 marks results (division
  by zero, non-integer exponents of pow) that are non-finite or
  irrational in C++ and outside the exact model; no claim exercises them.
* The transcendental libm functions (log, sin, ...) have no exact model;
  the evaluator is parameterized by a `TransFuns` record carrying an
  arbitrary implementation for them, and theorems quantify over it.
  `cot`, `acot`, `deg`, `rad`, `abs` are built from those exactly as the
  C++ source builds them.
* C++ exceptions become `Except Err`.  The constructors `ubEmptyTop` and
  `ubIndex` mark executions that are undefined behaviour in C++
  (`std::stack::top`/`pop` on an empty stack, `std::vector::operator[]`
  out of range); the model turns them into explicit faults.
* Strings are `List Char`; `std::string::const_iterator` positions are
  `Nat` indices into the whitespace-stripped expression.  The scanning
  loops advance the index by at least one per step; they are written
  with an explicit fuel argument that is always called with fuel at
  least the number of remaining characters, so the fuelled function
  agrees with the C++ loop.
-/

/-- Exact fraction model of a C++ double: numerator / denominator. -/
structure Dbl where
  num : Int
  den : Int
  deriving DecidableEq

/-- Denotation of a `Dbl` into ℚ. -/
def Dbl.toRat (q : Dbl) : ℚ := (q.num : ℚ) / (q.den : ℚ)

def qZero : Dbl := ⟨0, 1⟩

def qOne : Dbl := ⟨1, 1⟩

/-- Marker for results that are non-finite (inf/NaN) or irrational in C++
and hence outside the exact-fraction model; no claim exercises them. -/
def qUndef : Dbl := ⟨0, 0⟩

def Dbl.add (a b : Dbl) : Dbl := ⟨a.num * b.den + b.num * a.den, a.den * b.den⟩

def Dbl.sub (a b : Dbl) : Dbl := ⟨a.num * b.den - b.num * a.den, a.den * b.den⟩

def Dbl.mul (a b : Dbl) : Dbl := ⟨a.num * b.num, a.den * b.den⟩

def Dbl.div (a b : Dbl) : Dbl := ⟨a.num * b.den, a.den * b.num⟩

/-- Iterated product, used to model `std::pow` on integer exponents
(where IEEE pow is exact for the inputs the claims exercise). -/
def qpow (l : Dbl) : Nat → Dbl
  | 0 => qOne
  | n + 1 => l.mul (qpow l n)

/-- Model of `std::pow(l, r)`: exact for integer exponents; a non-integer
exponent yields an irrational or NaN double, outside the model. -/
def powD (l r : Dbl) : Dbl :=
  if r.den ≠ 0 ∧ r.den ∣ r.num then
    let n := Int.tdiv r.num r.den
    if 0 ≤ n then qpow l n.toNat else qOne.div (qpow l (-n).toNat)
  else qUndef

/-- Model of `std::fmod(l, r)`: `l - r * trunc(l / r)` (remainder with the
sign of the dividend); `fmod(l, 0)` is NaN in C++, outside the model. -/
def fmodD (l r : Dbl) : Dbl :=
  if r.num = 0 then qUndef
  else
    let q := l.div r
    l.sub (r.mul ⟨Int.tdiv q.num q.den, 1⟩)

/-- Exact value of the double constant `M_PI`
(3.14159265358979323846 rounded to the nearest double). -/
def mPI : Dbl := ⟨884279719003555, 281474976710656⟩

-- ---------------------------------------------------------------------
-- Token data model (math_interpreter.h: BitType, InputBit, VarTable)
-- ---------------------------------------------------------------------

abbrev Str := List Char

inductive BitType where
  | OPERATOR
  | NUMBER
  | VARIABLE
  | FUNCTION
  | LPARENTHESIS
  | RPARENTHESIS
  deriving DecidableEq

/-- `InputBit = std::pair<std::string, BitType>`. -/
structure InputBit where
  first : Str
  second : BitType
  deriving DecidableEq

abbrev VarTable := List (Str × Dbl)

/-- Exceptions of the C++ code, plus explicit markers for executions that
are undefined behaviour or uncaught standard-library exceptions there. -/
inductive Err where
  | badInit
  | synErr
  | unknownExpr (name : Str)
  | unknownVar (name : Str)
  | ubEmptyTop
  | ubIndex
  | stodErr
  | stoiErr
  deriving DecidableEq

instance exceptDecEq {ε α : Type} [DecidableEq ε] [DecidableEq α] :
    DecidableEq (Except ε α) := fun a b =>
  match a, b with
  | Except.ok x, Except.ok y =>
    match decEq x y with
    | isTrue h => isTrue (by rw [h])
    | isFalse h => isFalse (by intro hc; cases hc; exact h rfl)
  | Except.ok _, Except.error _ => isFalse (by intro hc; cases hc)
  | Except.error _, Except.ok _ => isFalse (by intro hc; cases hc)
  | Except.error x, Except.error y =>
    match decEq x y with
    | isTrue h => isTrue (by rw [h])
    | isFalse h => isFalse (by intro hc; cases hc; exact h rfl)

/-- Implementations of the libm functions the evaluator may call; the
evaluator is parameterized over them since they have no exact model. -/
structure TransFuns where
  log : Dbl → Dbl
  log10 : Dbl → Dbl
  sin : Dbl → Dbl
  cos : Dbl → Dbl
  tan : Dbl → Dbl
  asin : Dbl → Dbl
  acos : Dbl → Dbl
  atan : Dbl → Dbl
  sqrt : Dbl → Dbl
  exp : Dbl → Dbl

/-- A concrete (arbitrary) instantiation, used for closed statements whose
evaluation never reaches a libm call. -/
def tfZero : TransFuns :=
  ⟨fun _ => qZero, fun _ => qZero, fun _ => qZero, fun _ => qZero,
   fun _ => qZero, fun _ => qZero, fun _ => qZero, fun _ => qZero,
   fun _ => qZero, fun _ => qZero⟩

-- ---------------------------------------------------------------------
-- Scanner (m_clear_whitespaces, m_isOperator, m_isNumber, extractors)
-- ---------------------------------------------------------------------

/-- Whitespace skipped by `operator>>` with the default locale. -/
def isWS (c : Char) : Bool :=
  c = ' ' || c = '\t' || c = '\n' || c = '\x0b' || c = '\x0c' || c = '\r'

/-- `m_clear_whitespaces`: drop every whitespace character. -/
def m_clear_whitespaces (s : Str) : Str := s.filter (fun c => !(isWS c))

/-- Character at index `i`; callers only use in-bounds indices, matching
the C++ iterator dereferences. -/
def charAt (s : Str) (i : Nat) : Char := s.getD i ' '

/-- `m_isOperator(it, itBegin, itEnd)` with `it` at index `i` of the
whitespace-stripped expression `s`.  `+`/`-` are operators unless at the
start, after `(`, or after a character that is itself an operator
(recursive look-back, structural on the index). -/
def m_isOperator (s : Str) : Nat → Bool
  | 0 =>
    if 0 < s.length then
      let c := charAt s 0
      c = '*' || c = '/' || c = '^'
    else false
  | i + 1 =>
    if i + 1 < s.length then
      let c := charAt s (i + 1)
      if c = '+' || c = '-' then
        if charAt s i = '(' then false
        else if m_isOperator s i then false
        else true
      else c = '*' || c = '/' || c = '^'
    else false

def isDigitOrDot (c : Char) : Bool := c.isDigit || c = '.'

/-- `m_isNumber(it, itBegin, itEnd)` with `it` at index `i`: digits and
`.` always; `-` exactly when first, after `(`, or after an operator. -/
def m_isNumber (s : Str) (i : Nat) : Bool :=
  if i < s.length then
    let c := charAt s i
    if isDigitOrDot c then true
    else if c = '-' then
      match i with
      | 0 => true
      | j + 1 => charAt s j = '(' || m_isOperator s j
    else false
  else false

/-- While-loop of `m_extract_number`: consume while `m_isNumber`. -/
def numRun (s : Str) : Nat → Nat → Str × Nat
  | 0, i => ([], i)
  | fuel + 1, i =>
    if m_isNumber s i then
      let r := numRun s fuel (i + 1)
      (charAt s i :: r.1, r.2)
    else ([], i)

/-- While-loop of `m_extract_operator`: consume while `m_isOperator`. -/
def opRun (s : Str) : Nat → Nat → Str × Nat
  | 0, i => ([], i)
  | fuel + 1, i =>
    if m_isOperator s i then
      let r := opRun s fuel (i + 1)
      (charAt s i :: r.1, r.2)
    else ([], i)

/-- While-loop of `m_extract_variable`: consume while not at end and not
at a `$`. -/
def varRun (s : Str) : Nat → Nat → Str × Nat
  | 0, i => ([], i)
  | fuel + 1, i =>
    if i < s.length ∧ charAt s i ≠ '$' then
      let r := varRun s fuel (i + 1)
      (charAt s i :: r.1, r.2)
    else ([], i)

/-- While-loop of `m_extract_function`: consume while not at end and not
at a `(`. -/
def funRun (s : Str) : Nat → Nat → Str × Nat
  | 0, i => ([], i)
  | fuel + 1, i =>
    if i < s.length ∧ charAt s i ≠ '(' then
      let r := funRun s fuel (i + 1)
      (charAt s i :: r.1, r.2)
    else ([], i)

/-- `m_extract_variable`: skip the left `$`, take the name, skip the
right `$` when present (an unterminated `$` consumes to the end). -/
def m_extract_variable (s : Str) (i : Nat) : Str × Nat :=
  let i1 := if i < s.length then i + 1 else i
  let r := varRun s s.length i1
  let j := if r.2 < s.length then r.2 + 1 else r.2
  (r.1, j)

/-- `m_extract_parenthesis`: one character, `(` or `)`. -/
def m_extract_parenthesis (s : Str) (i : Nat) : InputBit × Nat :=
  if i < s.length then
    if charAt s i = '(' then (⟨['('], BitType.LPARENTHESIS⟩, i + 1)
    else if charAt s i = ')' then (⟨[')'], BitType.RPARENTHESIS⟩, i + 1)
    else (⟨[], BitType.LPARENTHESIS⟩, i + 1)
  else (⟨[], BitType.LPARENTHESIS⟩, i)

/-- Main loop of `m_make_input_bits`: dispatch on the character class at
the current position and extract one bit per iteration.  Each iteration
advances the index, so fuel `s.length` suffices from index 0. -/
def makeBits (s : Str) : Nat → Nat → List InputBit
  | 0, _ => []
  | fuel + 1, i =>
    if i < s.length then
      if m_isNumber s i then
        let r := numRun s s.length i
        ⟨r.1, BitType.NUMBER⟩ :: makeBits s fuel r.2
      else if m_isOperator s i then
        let r := opRun s s.length i
        ⟨r.1, BitType.OPERATOR⟩ :: makeBits s fuel r.2
      else if charAt s i = '$' then
        let r := m_extract_variable s i
        ⟨r.1, BitType.VARIABLE⟩ :: makeBits s fuel r.2
      else if charAt s i = '(' || charAt s i = ')' then
        let r := m_extract_parenthesis s i
        r.1 :: makeBits s fuel r.2
      else
        let r := funRun s s.length i
        ⟨r.1, BitType.FUNCTION⟩ :: makeBits s fuel r.2
    else []

/-- Token sequence produced for one expression by `m_make_input_bits`
(after whitespace stripping). -/
def rawBits (input : Str) : List InputBit :=
  let s := m_clear_whitespaces input
  makeBits s s.length 0

-- ---------------------------------------------------------------------
-- Lookup tables (m_isFunction, m_isVariable, m_precedence)
-- ---------------------------------------------------------------------

/-- The FUNCTION enumeration as ordinals: NONE = 0, LOG = 1, LOG10 = 2,
SIN = 3, COS = 4, TAN = 5, COT = 6, ASIN = 7, ACOS = 8, ATAN = 9,
ATAN2 = 10, ACOT = 11, DEG = 12, RAD = 13, SQRT = 14, EXP = 15,
ABS = 16. -/
def fnNames : List (Str × Nat) :=
  [(("LOG").toList, 1), (("log").toList, 1),
   (("LOG10").toList, 2), (("log10").toList, 2),
   (("SIN").toList, 3), (("sin").toList, 3),
   (("COS").toList, 4), (("cos").toList, 4),
   (("TAN").toList, 5), (("tan").toList, 5),
   (("COT").toList, 6), (("cot").toList, 6),
   (("ASIN").toList, 7), (("asin").toList, 7),
   (("ACOS").toList, 8), (("acos").toList, 8),
   (("ATAN").toList, 9), (("atan").toList, 9),
   (("ATAN2").toList, 10), (("atan2").toList, 10),
   (("ACOT").toList, 11), (("acot").toList, 11),
   (("DEG").toList, 12), (("deg").toList, 12),
   (("RAD").toList, 13), (("rad").toList, 13),
   (("SQRT").toList, 14), (("sqrt").toList, 14),
   (("EXP").toList, 15), (("exp").toList, 15),
   (("ABS").toList, 16), (("abs").toList, 16)]

/-- `m_isFunction`: exact match against the all-lower / all-upper names,
yielding the enum ordinal, 0 (NONE) when unknown. -/
def m_isFunction (tok : Str) : Nat :=
  match fnNames.find? (fun p => p.1 = tok) with
  | some p => p.2
  | none => 0

/-- Linear scan of `m_isVariable`: index of the first entry with the
given name plus one, 0 when absent. -/
def isVarAux : VarTable → Str → Nat → Nat
  | [], _, _ => 0
  | (n, _) :: rest, tok, i => if tok = n then i + 1 else isVarAux rest tok (i + 1)

def m_isVariable (vt : VarTable) (tok : Str) : Nat := isVarAux vt tok 0

/-- `m_precedence` of a bit, decided by its lexeme. -/
def m_precedence (b : InputBit) : Nat :=
  let op := b.first
  if op = ['+'] || op = ['-'] then 2
  else if op = ['*'] || op = ['/'] || op = ['%'] then 3
  else if op = ['^'] then 4
  else if m_isFunction op ≠ 0 then 5
  else 1

-- ---------------------------------------------------------------------
-- Calculator primitives (m_calc_operator, m_calc_function)
-- ---------------------------------------------------------------------

/-- `m_calc_operator(lVal, rVal, operatorName)`: switch on the first
character of the lexeme (an empty lexeme reads the terminating null in
C++ and falls to the default, 0.0). -/
def m_calc_operator (l r : Dbl) (opName : Str) : Dbl :=
  match opName with
  | [] => qZero
  | c :: _ =>
    if c = '+' then l.add r
    else if c = '-' then l.sub r
    else if c = '*' then l.mul r
    else if c = '/' then l.div r
    else if c = '%' then fmodD l r
    else if c = '^' then powD l r
    else qZero

/-- `m_calc_function(val, func)` over the enum ordinal.  ATAN2 (10) has
no case in the C++ switch and falls to the default, 0.0. -/
def m_calc_function (F : TransFuns) (val : Dbl) (func : Nat) : Dbl :=
  match func with
  | 1 => F.log val
  | 2 => F.log10 val
  | 3 => F.sin val
  | 4 => F.cos val
  | 5 => F.tan val
  | 6 => qOne.div (F.tan val)
  | 7 => F.asin val
  | 8 => F.acos val
  | 9 => F.atan val
  | 11 => F.atan (qOne.div val)
  | 12 => (val.div ((Dbl.mk 2 1).mul mPI)).mul ⟨360, 1⟩
  | 13 => ((val.div ⟨360, 1⟩).mul ⟨2, 1⟩).mul mPI
  | 14 => F.sqrt val
  | 15 => F.exp val
  | 16 => if val.num * val.den < 0 then ⟨-val.num, val.den⟩ else val
  | _ => qZero

-- ---------------------------------------------------------------------
-- Numeric string conversions (std::to_string, std::stod, std::stoi)
-- ---------------------------------------------------------------------

def digitChar (d : Nat) : Char := Char.ofNat (48 + d)

def natChars : Nat → Nat → Str
  | 0, _ => []
  | fuel + 1, n =>
    if n < 10 then [digitChar n]
    else natChars fuel (n / 10) ++ [digitChar (n % 10)]

/-- Decimal digits of a natural number (`std::to_string` on a
non-negative integer). -/
def natToChars (n : Nat) : Str := natChars (n + 1) n

def padded6 (k : Nat) : Str :=
  let d := natToChars k
  List.replicate (6 - d.length) '0' ++ d

/-- `std::to_string(double)` on a non-negative value: `%f` format, six
fractional digits, rounded to nearest (a decimal tie is impossible for a
binary double, so round half up coincides). -/
def to_string_f6 (q : Dbl) : Str :=
  let m := (Int.fdiv (2000000 * q.num + q.den) (2 * q.den)).toNat
  natToChars (m / 1000000) ++ '.' :: padded6 (m % 1000000)

/-- Leading digit run of a lexeme: value, digit count, rest. -/
def digitsAcc : Str → Nat × Nat → (Nat × Nat) × Str
  | [], acc => (acc, [])
  | c :: rest, (v, k) =>
    if c.isDigit then digitsAcc rest (v * 10 + (c.toNat - 48), k + 1)
    else ((v, k), c :: rest)

/-- Model of `std::stod` on the scanner's number lexemes (digits, `.`,
and a leading sign are the only characters those lexemes can contain):
longest valid prefix, `none` when no digit is found
(`std::invalid_argument`).  The decimal values the claims exercise are
exactly representable, where stod's correctly-rounded result is exact. -/
def stodQ (s : Str) : Option Dbl :=
  let p : Int × Str :=
    match s with
    | '-' :: r => (-1, r)
    | '+' :: r => (1, r)
    | r => (1, r)
  let d1 := digitsAcc p.2 (0, 0)
  let d2 :=
    match d1.2 with
    | '.' :: r => digitsAcc r (0, 0)
    | r => ((0, 0), r)
  if d1.1.2 + d2.1.2 = 0 then none
  else
    some (Dbl.mk (p.1 * ((d1.1.1 : Int) * ((10 ^ d2.1.2 : Nat) : Int) + (d2.1.1 : Int)))
          (((10 ^ d2.1.2 : Nat) : Int)))

/-- Model of `std::stoi`: longest valid prefix, `none` both for no digit
(`std::invalid_argument`) and for overflow past int range
(`std::out_of_range`). -/
def stoiQ (s : Str) : Option Int :=
  let p : Int × Str :=
    match s with
    | '-' :: r => (-1, r)
    | '+' :: r => (1, r)
    | r => (1, r)
  let d := digitsAcc p.2 (0, 0)
  if d.1.2 = 0 then none
  else
    let n : Int := p.1 * d.1.1
    if n < -2147483648 ∨ 2147483647 < n then none else some n

-- ---------------------------------------------------------------------
-- Shunting-yard conversion (m_make_rpn and its handlers)
-- ---------------------------------------------------------------------

/-- Pop-loop of `m_handle_operator`: pop stack tops with precedence
greater than or equal to `p` into the output queue. -/
def popGEAux (p : Nat) : List InputBit → List InputBit → List InputBit × List InputBit
  | [], outQ => ([], outQ)
  | top :: rest, outQ =>
    if m_precedence top < p then (top :: rest, outQ)
    else popGEAux p rest (outQ ++ [top])

/-- `m_handle_operator`: pop all stack tops with precedence >= the
incoming operator's, then push the incoming operator. -/
def m_handle_operator (b : InputBit) (stk outQ : List InputBit) :
    List InputBit × List InputBit :=
  if b.second = BitType.OPERATOR then
    let r := popGEAux (m_precedence b) stk outQ
    (b :: r.1, r.2)
  else (stk, outQ)

/-- `m_handle_variable`: a `pi`/`PI` variable bit is rewritten in place
into a Number bit carrying `std::to_string(M_PI)`; any other variable
name is appended to the variable table (unconditionally) with value 0.0;
the (possibly rewritten) bit goes to the output queue. -/
def m_handle_variable (b : InputBit) (outQ : List InputBit) (vt : VarTable) :
    List InputBit × VarTable :=
  if b.second = BitType.VARIABLE then
    if b.first = ("PI").toList ∨ b.first = ("pi").toList then
      (outQ ++ [⟨to_string_f6 mPI, BitType.NUMBER⟩], vt)
    else (outQ ++ [b], vt ++ [(b.first, qZero)])
  else (outQ, vt)

/-- The in-place `pi` rewrite `m_handle_variable` performs on the bit
stored in `m_inputBits` (via the const_cast). -/
def piRW (b : InputBit) : InputBit :=
  if b.second = BitType.VARIABLE ∧
      (b.first = ("PI").toList ∨ b.first = ("pi").toList) then
    ⟨to_string_f6 mPI, BitType.NUMBER⟩
  else b

/-- Pop-loop of `m_handle_rParenthesis`: pop to the output queue until
the top lexeme is `(`; an emptied stack is a syntax error, otherwise the
`(` is popped and discarded. -/
def rParenAux : List InputBit → List InputBit → Except Err (List InputBit × List InputBit)
  | [], _ => Except.error Err.synErr
  | top :: rest, outQ =>
    if top.first = ['('] then Except.ok (rest, outQ)
    else rParenAux rest (outQ ++ [top])

def m_handle_rParenthesis (b : InputBit) (stk outQ : List InputBit) :
    Except Err (List InputBit × List InputBit) :=
  if b.second = BitType.RPARENTHESIS then rParenAux stk outQ
  else Except.ok (stk, outQ)

/-- Main loop of `m_make_rpn` over the input bits, carrying the operator
stack (head = top), the output queue (FIFO) and the variable table. -/
def syRun : List InputBit → List InputBit → List InputBit → VarTable →
    Except Err (List InputBit × List InputBit × VarTable)
  | [], stk, outQ, vt => Except.ok (stk, outQ, vt)
  | b :: rest, stk, outQ, vt =>
    match b.second with
    | BitType.OPERATOR =>
      let r := m_handle_operator b stk outQ
      syRun rest r.1 r.2 vt
    | BitType.NUMBER => syRun rest stk (outQ ++ [b]) vt
    | BitType.VARIABLE =>
      let r := m_handle_variable b outQ vt
      syRun rest stk r.1 r.2
    | BitType.FUNCTION => syRun rest (b :: stk) outQ vt
    | BitType.LPARENTHESIS => syRun rest (b :: stk) outQ vt
    | BitType.RPARENTHESIS =>
      match m_handle_rParenthesis b stk outQ with
      | Except.error e => Except.error e
      | Except.ok r => syRun rest r.1 r.2 vt

-- ---------------------------------------------------------------------
-- RPN validation / tag resolution (m_validate_rpn)
-- ---------------------------------------------------------------------

/-- Loop of `m_validate_rpn`: a leftover `(` throws immediately; a
Variable bit's lexeme becomes `std::to_string(size_t(index+1) - 1)`
(unsigned, so an absent name wraps around to 2^64 - 1); a Function bit's
lexeme becomes `std::to_string(int(enum))`, recording the last unknown
name in a flag that is thrown after the loop. -/
def validAux (vt : VarTable) :
    List InputBit → List InputBit → Bool → Str →
    Except Err (List InputBit × Bool × Str)
  | [], acc, flag, nm => Except.ok (acc, flag, nm)
  | b :: rest, acc, flag, nm =>
    match b.second with
    | BitType.LPARENTHESIS => Except.error Err.synErr
    | BitType.VARIABLE =>
      let idx := m_isVariable vt b.first
      let tag := natToChars ((idx + 18446744073709551615) % 18446744073709551616)
      validAux vt rest (acc ++ [⟨tag, BitType.VARIABLE⟩]) flag nm
    | BitType.FUNCTION =>
      let f := m_isFunction b.first
      if f = 0 then
        validAux vt rest (acc ++ [⟨natToChars f, BitType.FUNCTION⟩]) true b.first
      else
        validAux vt rest (acc ++ [⟨natToChars f, BitType.FUNCTION⟩]) flag nm
    | _ => validAux vt rest (acc ++ [b]) flag nm

def m_validate_rpn (vt : VarTable) (rpn : List InputBit) :
    Except Err (List InputBit) :=
  match validAux vt rpn [] false [] with
  | Except.error e => Except.error e
  | Except.ok (r, flag, nm) =>
    if flag then Except.error (Err.unknownExpr nm) else Except.ok r

-- ---------------------------------------------------------------------
-- Interpreter state and public operations
-- ---------------------------------------------------------------------

/-- The mutable members of a `MathInterpreter` object.  The operator
stack and output queue are drained by every successful `m_make_rpn`; the
number stack persists across `calculate` calls. -/
structure InterpState where
  inputExpr : Str
  inputBits : List InputBit
  rpn : List InputBit
  varTable : VarTable
  opStack : List InputBit
  outQueue : List InputBit
  numberStack : List Dbl
  deriving DecidableEq

/-- A default-constructed `MathInterpreter`. -/
def initState : InterpState := ⟨[], [], [], [], [], [], []⟩

/-- `m_make_input_bits`: strip whitespace, throw `BAD_INIT` when empty,
then push the extracted bits onto the (never cleared) `m_inputBits`. -/
def m_make_input_bits (st : InterpState) : Except Err InterpState :=
  let s := m_clear_whitespaces st.inputExpr
  if s = [] then Except.error Err.badInit
  else Except.ok { st with inputBits := st.inputBits ++ makeBits s s.length 0 }

/-- `m_make_rpn`: run the shunting-yard loop over all accumulated input
bits, drain the operator stack into the output queue, move the queue
into `m_rpn`, then validate.  The `pi` rewrite mutates `m_inputBits`. -/
def m_make_rpn (st : InterpState) : Except Err InterpState :=
  match syRun st.inputBits st.opStack st.outQueue st.varTable with
  | Except.error e => Except.error e
  | Except.ok (stk, outQ, vt) =>
    match m_validate_rpn vt (outQ ++ stk) with
    | Except.error e => Except.error e
    | Except.ok rpn1 =>
      Except.ok { st with
                  inputBits := st.inputBits.map piRW
                  rpn := rpn1
                  varTable := vt
                  opStack := []
                  outQueue := [] }

/-- `init_with_expr`: store the expression, then
`m_make_input_bits(); m_make_rpn();`. -/
def init_with_expr (st : InterpState) (input : Str) : Except Err InterpState :=
  (m_make_input_bits { st with inputExpr := input }).bind m_make_rpn

/-- `set_value`: linear lookup, `UNKNOWN_VARIABLE` when absent,
otherwise overwrite the first matching slot's value. -/
def set_value (st : InterpState) (varName : Str) (varValue : Dbl) :
    Except Err InterpState :=
  let idx := m_isVariable st.varTable varName
  if idx = 0 then Except.error (Err.unknownVar varName)
  else Except.ok { st with varTable := st.varTable.set (idx - 1) (varName, varValue) }

/-- One step of the `calculate` loop on the evaluation stack.  Popping an
empty `std::stack` is undefined behaviour in C++, surfaced as
`ubEmptyTop`; `std::vector::operator[]` out of range as `ubIndex`;
uncaught `std::stod`/`std::stoi` exceptions as `stodErr`/`stoiErr`. -/
def calcStep (F : TransFuns) (vt : VarTable) (stk : List Dbl) (b : InputBit) :
    Except Err (List Dbl) :=
  match b.second with
  | BitType.NUMBER =>
    match stodQ b.first with
    | none => Except.error Err.stodErr
    | some q => Except.ok (q :: stk)
  | BitType.OPERATOR =>
    match stk with
    | r :: l :: rest => Except.ok (m_calc_operator l r b.first :: rest)
    | _ => Except.error Err.ubEmptyTop
  | BitType.FUNCTION =>
    match stoiQ b.first with
    | none => Except.error Err.stoiErr
    | some f =>
      if f < 0 then Except.error Err.stoiErr
      else
        match stk with
        | v :: rest => Except.ok (m_calc_function F v f.toNat :: rest)
        | [] => Except.error Err.ubEmptyTop
  | BitType.VARIABLE =>
    match stoiQ b.first with
    | none => Except.error Err.stoiErr
    | some i =>
      if i < 0 then Except.error Err.ubIndex
      else
        match vt.get? i.toNat with
        | some pr => Except.ok (pr.2 :: stk)
        | none => Except.error Err.ubIndex
  | _ => Except.ok stk

/-- The `calculate` loop over the RPN. -/
def calcFold (F : TransFuns) (vt : VarTable) :
    List InputBit → List Dbl → Except Err (List Dbl)
  | [], stk => Except.ok stk
  | b :: rest, stk =>
    match calcStep F vt stk b with
    | Except.error e => Except.error e
    | Except.ok stk1 => calcFold F vt rest stk1

/-- `calculate`: run the loop from the object's (normally empty) number
stack and return the resulting top of stack; `top()` on an empty stack
is undefined behaviour.  (The C++ member stack keeps its final contents;
no claim reads them, so only the returned value is modelled.) -/
def calculate (F : TransFuns) (st : InterpState) : Except Err Dbl :=
  match calcFold F st.varTable st.rpn st.numberStack with
  | Except.error e => Except.error e
  | Except.ok [] => Except.error Err.ubEmptyTop
  | Except.ok (t :: _) => Except.ok t

/-- Variable-table contribution of a bit list: one `(name, 0.0)` entry
per non-`pi` Variable bit, in order (used to state what
`m_handle_variable` accumulates). -/
def varsOf (bits : List InputBit) : VarTable :=
  bits.filterMap (fun b =>
    if b.second = BitType.VARIABLE ∧
        ¬(b.first = ("PI").toList ∨ b.first = ("pi").toList) then
      some (b.first, qZero)
    else none)

-- ---------------------------------------------------------------------
-- Concrete interpreter states reached in the witness scenarios
-- ---------------------------------------------------------------------

/-- State after `init_with_expr("$x$*$x$")` on a fresh object. -/
def stDupVar : InterpState :=
  ⟨("$x$*$x$").toList,
   [⟨("x").toList, BitType.VARIABLE⟩, ⟨("*").toList, BitType.OPERATOR⟩,
    ⟨("x").toList, BitType.VARIABLE⟩],
   [⟨("0").toList, BitType.VARIABLE⟩, ⟨("0").toList, BitType.VARIABLE⟩,
    ⟨("*").toList, BitType.OPERATOR⟩],
   [(("x").toList, qZero), (("x").toList, qZero)], [], [], []⟩

/-- State after `init_with_expr("1+2")` on a fresh object. -/
def stOnePlusTwo : InterpState :=
  ⟨("1+2").toList,
   [⟨("1").toList, BitType.NUMBER⟩, ⟨("+").toList, BitType.OPERATOR⟩,
    ⟨("2").toList, BitType.NUMBER⟩],
   [⟨("1").toList, BitType.NUMBER⟩, ⟨("2").toList, BitType.NUMBER⟩,
    ⟨("+").toList, BitType.OPERATOR⟩],
   [], [], [], []⟩

/-- State after a second `init_with_expr("3*4")` on the same object. -/
def stReinit : InterpState :=
  ⟨("3*4").toList,
   [⟨("1").toList, BitType.NUMBER⟩, ⟨("+").toList, BitType.OPERATOR⟩,
    ⟨("2").toList, BitType.NUMBER⟩, ⟨("3").toList, BitType.NUMBER⟩,
    ⟨("*").toList, BitType.OPERATOR⟩, ⟨("4").toList, BitType.NUMBER⟩],
   [⟨("1").toList, BitType.NUMBER⟩, ⟨("2").toList, BitType.NUMBER⟩,
    ⟨("3").toList, BitType.NUMBER⟩, ⟨("4").toList, BitType.NUMBER⟩,
    ⟨("*").toList, BitType.OPERATOR⟩, ⟨("+").toList, BitType.OPERATOR⟩],
   [], [], [], []⟩

-- ---------------------------------------------------------------------
-- Helper lemmas about the embedded operations
-- ---------------------------------------------------------------------

/-- The shunting-yard loop appends one table entry per non-`pi` Variable
bit it processes, in order. -/
theorem syRun_varTable (bits : List InputBit) :
    ∀ (stk outQ : List InputBit) (vt : VarTable)
      (s o : List InputBit) (v : VarTable),
      syRun bits stk outQ vt = Except.ok (s, o, v) → v = vt ++ varsOf bits := by
  induction bits with
  | nil =>
    intro stk outQ vt s o v h
    simp only [syRun, Except.ok.injEq, Prod.mk.injEq] at h
    simp [varsOf, ← h.2.2]
  | cons b rest ih =>
    intro stk outQ vt s o v h
    cases hb : b.second
    case OPERATOR =>
      simp only [syRun, hb] at h
      have := ih _ _ _ _ _ _ h
      simp [varsOf, List.filterMap_cons, hb] at this ⊢
      exact this
    case NUMBER =>
      simp only [syRun, hb] at h
      have := ih _ _ _ _ _ _ h
      simp [varsOf, List.filterMap_cons, hb] at this ⊢
      exact this
    case VARIABLE =>
      simp only [syRun, hb] at h
      by_cases hpi : b.first = ("PI").toList ∨ b.first = ("pi").toList
      · simp only [m_handle_variable, hb, if_pos rfl, if_pos hpi] at h
        have hrest := ih _ _ _ _ _ _ h
        rcases hpi with h1 | h1 <;>
          simpa [varsOf, List.filterMap_cons, hb, h1] using hrest
      · simp only [m_handle_variable, hb, if_pos rfl, if_neg hpi] at h
        have hrest := ih _ _ _ _ _ _ h
        push_neg at hpi
        have h1 : ¬ b.first = ['P', 'I'] := by simpa using hpi.1
        have h2 : ¬ b.first = ['p', 'i'] := by simpa using hpi.2
        simpa [varsOf, List.filterMap_cons, hb, h1, h2,
          List.append_assoc] using hrest
    case FUNCTION =>
      simp only [syRun, hb] at h
      have := ih _ _ _ _ _ _ h
      simp [varsOf, List.filterMap_cons, hb] at this ⊢
      exact this
    case LPARENTHESIS =>
      simp only [syRun, hb] at h
      have := ih _ _ _ _ _ _ h
      simp [varsOf, List.filterMap_cons, hb] at this ⊢
      exact this
    case RPARENTHESIS =>
      simp only [syRun, hb] at h
      cases hr : m_handle_rParenthesis b stk outQ with
      | error e => rw [hr] at h; simp at h
      | ok r =>
        rw [hr] at h
        have := ih _ _ _ _ _ _ h
        simp [varsOf, List.filterMap_cons, hb] at this ⊢
        exact this

/-- Inversion of a successful `init_with_expr`: the accumulated input
bits are the old ones plus the new expression's bits, with the `pi`
rewrite applied. -/
theorem init_ok_inputBits (st st' : InterpState) (input : Str)
    (h : init_with_expr st input = Except.ok st') :
    st'.inputBits = (st.inputBits ++ rawBits input).map piRW := by
  simp only [init_with_expr, m_make_input_bits] at h
  split at h
  · simp [Except.bind] at h
  · simp only [Except.bind, m_make_rpn] at h
    split at h
    · simp at h
    · split at h
      · simp at h
      · simp only [Except.ok.injEq] at h
        subst h
        simp [rawBits]

/-- Inversion of a successful `init_with_expr`: the variable table is
the old one plus one entry per non-`pi` Variable bit of the full
accumulated bit sequence. -/
theorem init_ok_varTable (st st' : InterpState) (input : Str)
    (h : init_with_expr st input = Except.ok st') :
    st'.varTable = st.varTable ++ varsOf (st.inputBits ++ rawBits input) := by
  simp only [init_with_expr, m_make_input_bits] at h
  split at h
  · simp [Except.bind] at h
  · simp only [Except.bind, m_make_rpn] at h
    split at h
    · simp at h
    · rename_i stk1 outQ1 vt1 hsy
      split at h
      · simp at h
      · simp only [Except.ok.injEq] at h
        subst h
        exact syRun_varTable _ _ _ _ _ _ _ hsy

/-- One evaluation step never produces the syntax-error exception: the
`calculate` loop contains no throw of `INPUT_EXPR_SYNTAX_ERROR`. -/
theorem calcStep_no_synErr (F : TransFuns) (vt : VarTable) (stk : List Dbl)
    (b : InputBit) : calcStep F vt stk b ≠ Except.error Err.synErr := by
  unfold calcStep
  cases b.second
  case NUMBER => cases stodQ b.first <;> simp
  case OPERATOR =>
    cases stk with
    | nil => simp
    | cons r t => cases t <;> simp
  case FUNCTION =>
    cases stoiQ b.first with
    | none => simp
    | some f =>
      by_cases hf : f < 0
      · simp [hf]
      · cases stk <;> simp [hf]
  case VARIABLE =>
    cases stoiQ b.first with
    | none => simp
    | some i =>
      by_cases hi : i < 0
      · simp [hi]
      · simp only [hi, if_false]
        split <;> simp
  case LPARENTHESIS => simp
  case RPARENTHESIS => simp

/-- The `calculate` loop never produces the syntax-error exception. -/
theorem calcFold_no_synErr (F : TransFuns) (vt : VarTable) :
    ∀ (rpn : List InputBit) (stk : List Dbl),
      calcFold F vt rpn stk ≠ Except.error Err.synErr
  | [], stk => by simp [calcFold]
  | b :: rest, stk => by
    unfold calcFold
    cases hs : calcStep F vt stk b with
    | error e =>
      have hne := calcStep_no_synErr F vt stk b
      rw [hs] at hne
      simpa using hne
    | ok stk1 => simpa using calcFold_no_synErr F vt rest stk1

/-- `calculate` itself never throws `INPUT_EXPR_SYNTAX_ERROR`. -/
theorem calculate_no_synErr (F : TransFuns) (st : InterpState) :
    calculate F st ≠ Except.error Err.synErr := by
  unfold calculate
  cases hf : calcFold F st.varTable st.rpn st.numberStack with
  | error e =>
    have hne := calcFold_no_synErr F st.varTable st.rpn st.numberStack
    rw [hf] at hne
    simpa using hne
  | ok stk => cases stk <;> simp

/-- On a program with no Variable and no Function bits, the validation
loop only checks for leftover `(` and copies the bits through. -/
theorem validAux_plain (vt : VarTable) :
    ∀ (rpn acc : List InputBit) (flag : Bool) (nm : Str),
      (∀ b ∈ rpn, b.second ≠ BitType.VARIABLE ∧ b.second ≠ BitType.FUNCTION) →
      validAux vt rpn acc flag nm = Except.error Err.synErr ∨
      (validAux vt rpn acc flag nm = Except.ok (acc ++ rpn, flag, nm) ∧
        ∀ b ∈ rpn, b.second ≠ BitType.LPARENTHESIS)
  | [], acc, flag, nm => by intro _; right; simp [validAux]
  | b :: rest, acc, flag, nm => by
    intro hhyp
    have hb := hhyp b (by simp)
    have hrest : ∀ x ∈ rest, x.second ≠ BitType.VARIABLE ∧ x.second ≠ BitType.FUNCTION :=
      fun x hx => hhyp x (by simp [hx])
    cases hsec : b.second
    case VARIABLE => exact absurd hsec hb.1
    case FUNCTION => exact absurd hsec hb.2
    case LPARENTHESIS =>
      left
      simp [validAux, hsec]
    case OPERATOR =>
      rcases validAux_plain vt rest (acc ++ [b]) flag nm hrest with hl | ⟨hr, hnp⟩
      · left; simpa [validAux, hsec] using hl
      · right
        constructor
        · simpa [validAux, hsec] using hr
        · intro x hx
          rcases List.mem_cons.mp hx with hx | hx
          · rw [hx, hsec]; simp
          · exact hnp x hx
    case NUMBER =>
      rcases validAux_plain vt rest (acc ++ [b]) flag nm hrest with hl | ⟨hr, hnp⟩
      · left; simpa [validAux, hsec] using hl
      · right
        constructor
        · simpa [validAux, hsec] using hr
        · intro x hx
          rcases List.mem_cons.mp hx with hx | hx
          · rw [hx, hsec]; simp
          · exact hnp x hx
    case RPARENTHESIS =>
      rcases validAux_plain vt rest (acc ++ [b]) flag nm hrest with hl | ⟨hr, hnp⟩
      · left; simpa [validAux, hsec] using hl
      · right
        constructor
        · simpa [validAux, hsec] using hr
        · intro x hx
          rcases List.mem_cons.mp hx with hx | hx
          · rw [hx, hsec]; simp
          · exact hnp x hx

/-- A list dropped at an in-bounds index starts with the character at
that index. -/
theorem drop_cons_charAt (s : Str) (i : Nat) (h : i < s.length) :
    s.drop i = charAt s i :: s.drop (i + 1) := by
  rw [charAt, List.getD_eq_getElem s ' ' h, List.getElem_cons_drop s i h]

/-- With no `$` among the remaining characters, the variable-name loop
consumes everything up to the end of the expression. -/
theorem varRun_all (s : Str) :
    ∀ (fuel i : Nat), s.length ≤ i + fuel → i ≤ s.length →
      (∀ c ∈ s.drop i, c ≠ '$') →
      varRun s fuel i = (s.drop i, s.length) := by
  intro fuel
  induction fuel with
  | zero =>
    intro i h1 h2 _
    have hi : i = s.length := le_antisymm h2 (by simpa using h1)
    subst hi
    simp [varRun, List.drop_length]
  | succ n ih =>
    intro i h1 h2 h3
    by_cases hlt : i < s.length
    · have hdc := drop_cons_charAt s i hlt
      have hc : charAt s i ≠ '$' := h3 _ (by rw [hdc]; exact List.mem_cons_self _ _)
      have hrec := ih (i + 1) (by omega) (by omega)
        (fun c hcmem => h3 c (by rw [hdc]; exact List.mem_cons_of_mem _ hcmem))
      unfold varRun
      rw [if_pos ⟨hlt, hc⟩, hrec, hdc]
    · have hi : i = s.length := le_antisymm h2 (by omega)
      subst hi
      simp [varRun, List.drop_length]

/-- The variable-name loop stops at the first `$`, having consumed the
characters before it. -/
theorem varRun_until (s : Str) :
    ∀ (fuel i j : Nat), i ≤ j → j < s.length → s.length ≤ i + fuel →
      (∀ k, i ≤ k → k < j → charAt s k ≠ '$') → charAt s j = '$' →
      varRun s fuel i = ((s.drop i).take (j - i), j) := by
  intro fuel
  induction fuel with
  | zero => intro i j h1 h2 h3 _ _; omega
  | succ n ih =>
    intro i j h1 h2 h3 h4 h5
    by_cases hij : i = j
    · subst hij
      unfold varRun
      rw [if_neg (by simp [h5])]
      simp
    · have hlt : i < s.length := by omega
      have hdc := drop_cons_charAt s i hlt
      have hc : charAt s i ≠ '$' := h4 i le_rfl (by omega)
      have hrec := ih (i + 1) j (by omega) h2 (by omega)
        (fun k hk1 hk2 => h4 k (by omega) hk2) h5
      unfold varRun
      rw [if_pos ⟨hlt, hc⟩, hrec, hdc]
      have hji : j - i = (j - (i + 1)) + 1 := by omega
      rw [hji, List.take_succ_cons]

/-- Past the end of the expression the scanning loop emits nothing. -/
theorem makeBits_end (s : Str) (fuel i : Nat) (h : s.length ≤ i) :
    makeBits s fuel i = [] := by
  cases fuel with
  | zero => rfl
  | succ n =>
    unfold makeBits
    rw [if_neg (by omega)]

/-- `m_extract_variable` on an unterminated marker: the whole remainder
of the expression becomes the variable name. -/
theorem extract_variable_unterminated (rest : Str) (hd : '$' ∉ rest) :
    m_extract_variable ('$' :: rest) 0 = (rest, ('$' :: rest).length) := by
  unfold m_extract_variable
  have hlen : (0 : Nat) < ('$' :: rest).length := by simp
  rw [if_pos hlen]
  have hall : ∀ c ∈ ('$' :: rest).drop 1, c ≠ '$' := by
    intro c hc
    simp only [List.drop_succ_cons, List.drop_zero] at hc
    exact fun he => hd (he ▸ hc)
  simp only [Nat.zero_add]
  rw [varRun_all ('$' :: rest) ('$' :: rest).length 1 (by simp) (by simp) hall]
  simp

/-- `m_extract_variable` on a terminated marker: the name stops at the
closing `$`, which is then skipped. -/
theorem extract_variable_terminated (rest : Str) (hd : '$' ∉ rest) :
    m_extract_variable ('$' :: (rest ++ ['$'])) 0 =
      (rest, ('$' :: (rest ++ ['$'])).length) := by
  unfold m_extract_variable
  have hlen : (0 : Nat) < ('$' :: (rest ++ ['$'])).length := by simp
  rw [if_pos hlen]
  have hj : charAt ('$' :: (rest ++ ['$'])) (rest.length + 1) = '$' := by
    show (('$' :: rest) ++ ['$']).getD (rest.length + 1) ' ' = '$'
    have hb : rest.length + 1 < (('$' :: rest) ++ ['$']).length := by simp
    rw [List.getD_eq_getElem _ ' ' hb]
    exact List.getElem_concat_length _ _ _ (by simp) hb
  have hks : ∀ k, 1 ≤ k → k < rest.length + 1 →
      charAt ('$' :: (rest ++ ['$'])) k ≠ '$' := by
    intro k hk1 hk2
    show (('$' :: rest) ++ ['$']).getD k ' ' ≠ '$'
    rw [List.getD_append _ _ ' ' k (by simp; omega)]
    show charAt ('$' :: rest) k ≠ '$'
    have hkb : k < ('$' :: rest).length := by simp; omega
    rw [charAt, List.getD_eq_getElem _ ' ' hkb]
    intro he
    apply hd
    rw [← he]
    have hkm : k - 1 < rest.length := by simp at hkb; omega
    have hg : ('$' :: rest)[k] = rest[k - 1] := by
      rcases Nat.exists_eq_add_of_le hk1 with ⟨m, hm⟩
      subst hm
      simp [Nat.add_comm]
    rw [hg]
    exact List.getElem_mem hkm
  simp only [Nat.zero_add]
  rw [varRun_until ('$' :: (rest ++ ['$'])) ('$' :: (rest ++ ['$'])).length 1
    (rest.length + 1) (by omega) (by simp) (by simp) hks hj]
  have ht : (('$' :: (rest ++ ['$'])).drop 1).take (rest.length + 1 - 1) = rest := by
    simp only [List.drop_succ_cons, List.drop_zero, Nat.add_sub_cancel]
    exact List.take_left rest ['$']
  rw [ht]
  have : rest.length + 1 < ('$' :: (rest ++ ['$'])).length := by simp
  rw [if_pos this]
  simp

theorem isNum_at_dollar (s : Str) (h : charAt s 0 = '$') :
    m_isNumber s 0 = false := by
  unfold m_isNumber
  by_cases hl : 0 < s.length
  · rw [if_pos hl]
    dsimp only
    rw [h]
    decide
  · rw [if_neg hl]

theorem isOp_at_dollar (s : Str) (h : charAt s 0 = '$') :
    m_isOperator s 0 = false := by
  unfold m_isOperator
  by_cases hl : 0 < s.length
  · rw [if_pos hl]
    dsimp only
    rw [h]
    decide
  · rw [if_neg hl]

/-- When the extractor consumes the whole expression, the scanner emits a
single Variable bit. -/
theorem makeBits_var_only (t nm : Str)
    (hext : m_extract_variable ('$' :: t) 0 = (nm, ('$' :: t).length)) :
    makeBits ('$' :: t) ('$' :: t).length 0 = [⟨nm, BitType.VARIABLE⟩] := by
  have hc0 : charAt ('$' :: t) 0 = '$' := rfl
  have hlen : ('$' :: t).length = t.length + 1 := by simp
  conv_lhs => rw [hlen]
  unfold makeBits
  rw [if_pos (by simp), isNum_at_dollar _ hc0, isOp_at_dollar _ hc0]
  simp only [Bool.false_eq_true, if_false, hc0, if_pos rfl, hext]
  rw [makeBits_end _ _ _ (by simp [hlen])]
  simp

theorem strip_id_of_noWS (l : Str) (hw : ∀ c ∈ l, isWS c = false) :
    m_clear_whitespaces l = l := by
  unfold m_clear_whitespaces
  rw [List.filter_eq_self]
  intro a ha
  simp [hw a ha]

/-- The result triple of `m_make_rpn` does not depend on the stored
input-expression text. -/
theorem make_rpn_drop_expr (e1 e2 : Str) (bits rp : List InputBit)
    (vt : VarTable) (os oq : List InputBit) (ns : List Dbl) :
    Except.map (fun st => (st.inputBits, st.rpn, st.varTable))
        (m_make_rpn ⟨e1, bits, rp, vt, os, oq, ns⟩) =
      Except.map (fun st => (st.inputBits, st.rpn, st.varTable))
        (m_make_rpn ⟨e2, bits, rp, vt, os, oq, ns⟩) := by
  unfold m_make_rpn
  dsimp only
  cases syRun bits os oq vt with
  | error e => rfl
  | ok tr =>
    obtain ⟨stk, outQ, vtv⟩ := tr
    dsimp only
    cases m_validate_rpn vtv (outQ ++ stk) with
    | error e => rfl
    | ok rpn1 => rfl

/-- Two expressions that tokenize to the same bits parse to the same
bits, postfix program and variable table. -/
theorem init_triple_of_bits_eq (a b : Str)
    (ha : ¬ m_clear_whitespaces a = []) (hb : ¬ m_clear_whitespaces b = [])
    (hbits : rawBits a = rawBits b) :
    Except.map (fun st => (st.inputBits, st.rpn, st.varTable))
        (init_with_expr initState a) =
      Except.map (fun st => (st.inputBits, st.rpn, st.varTable))
        (init_with_expr initState b) := by
  unfold init_with_expr m_make_input_bits
  dsimp only
  rw [if_neg ha, if_neg hb]
  show Except.map _ (m_make_rpn _) = Except.map _ (m_make_rpn _)
  simp only [rawBits] at hbits
  rw [hbits]
  exact make_rpn_drop_expr a b _ _ _ _ _ _

/-- An expression whose bit sequence is a single Variable bit always
parses successfully. -/
theorem init_single_var_isOk (a nm : Str)
    (ha : ¬ m_clear_whitespaces a = [])
    (hbits : rawBits a = [⟨nm, BitType.VARIABLE⟩]) :
    (init_with_expr initState a).isOk = true := by
  unfold init_with_expr m_make_input_bits
  dsimp only
  rw [if_neg ha]
  show (m_make_rpn _).isOk = true
  simp only [rawBits] at hbits
  unfold m_make_rpn
  rw [hbits]
  by_cases hpi : nm = ("PI").toList ∨ nm = ("pi").toList
  · rcases hpi with h1 | h1 <;> subst h1 <;>
      simp [syRun, m_handle_variable, m_validate_rpn, validAux, Except.isOk,
        Except.toBool, initState]
  · push_neg at hpi
    have h1 : ¬ nm = ['P', 'I'] := by simpa using hpi.1
    have h2 : ¬ nm = ['p', 'i'] := by simpa using hpi.2
    simp [syRun, m_handle_variable, m_validate_rpn, validAux, Except.isOk,
      Except.toBool, initState, h1, h2]

-- ---------------------------------------------------------------------
-- Claim theorems
-- ---------------------------------------------------------------------

/-- C1, counterexample.  The expression `1+` parses successfully, its
evaluation reaches the Operator token with only one operand on the
stack, and `calculate` does not fail with the SyntaxError exception:
the code performs an unchecked `top()` on an empty stack (undefined
behaviour, surfaced by the model as `ubEmptyTop`), which is a different
outcome than `Err.synErr`. -/
theorem C1_counterexample :
    (init_with_expr initState (("1+").toList)).isOk = true ∧
    (init_with_expr initState (("1+").toList)).bind (calculate tfZero) =
      Except.error Err.ubEmptyTop ∧
    Err.ubEmptyTop ≠ Err.synErr :=
  ⟨rfl, rfl, by decide⟩

/-- C1, amended.  When an Operator token is reached with fewer than two
operands, `calculate` does not raise `SyntaxError` — it cannot: no
execution of `calculate` produces that exception.  The unchecked pops
are undefined behaviour in C++, modelled as the `ubEmptyTop` fault, so
evaluation still does not complete with a result, but not through a
`SyntaxError`. -/
theorem C1_amended :
    (∀ (F : TransFuns) (st : InterpState),
      calculate F st ≠ Except.error Err.synErr) ∧
    (init_with_expr initState (("1+").toList)).bind (calculate tfZero) =
      Except.error Err.ubEmptyTop :=
  ⟨calculate_no_synErr, rfl⟩

/-- C2.  All operators, `^` included, are popped while the stack top has
precedence greater than or equal to the incoming operator's, so
`2^3^2` converts to the postfix program `2 3 ^ 2 ^` and evaluates to
`(2^3)^2 = 64` (for every libm implementation — no library function is
involved), not the right-associative 512. -/
theorem C2_pow_left_assoc :
    Except.map (fun st => st.rpn) (init_with_expr initState (("2^3^2").toList)) =
      Except.ok [⟨("2").toList, BitType.NUMBER⟩, ⟨("3").toList, BitType.NUMBER⟩,
        ⟨("^").toList, BitType.OPERATOR⟩, ⟨("2").toList, BitType.NUMBER⟩,
        ⟨("^").toList, BitType.OPERATOR⟩] ∧
    (∀ F : TransFuns,
      Except.map Dbl.toRat
          ((init_with_expr initState (("2^3^2").toList)).bind (calculate F)) =
        Except.ok (64 : ℚ)) ∧
    (64 : ℚ) ≠ 512 := by
  refine ⟨rfl, fun F => ?_, by norm_num⟩
  have h : (init_with_expr initState (("2^3^2").toList)).bind (calculate F) =
      Except.ok ⟨64, 1⟩ := rfl
  rw [h]
  show Except.ok (Dbl.toRat ⟨64, 1⟩) = Except.ok (64 : ℚ)
  norm_num [Dbl.toRat]

/-- C3, counterexample.  Parsing `$pi$` rewrites the token into a Number
token, adds nothing to the variable table — but the token's lexeme is
`std::to_string(M_PI)` = `"3.141593"` (six fractional digits), whose
numeric value 3.141593 is not the claimed 3.14159265358979323846. -/
theorem C3_counterexample :
    Except.map (fun st => (st.rpn, st.varTable))
        (init_with_expr initState (("$pi$").toList)) =
      Except.ok ([⟨("3.141593").toList, BitType.NUMBER⟩], []) ∧
    Option.map Dbl.toRat (stodQ (("3.141593").toList)) =
      some ((3141593 : ℚ) / 1000000) ∧
    (3141593 : ℚ) / 1000000 ≠ 314159265358979323846 / 100000000000000000000 := by
  refine ⟨rfl, ?_, by norm_num⟩
  have h : stodQ (("3.141593").toList) = some ⟨3141593, 1000000⟩ := rfl
  rw [h]
  show some (Dbl.toRat ⟨3141593, 1000000⟩) = some ((3141593 : ℚ) / 1000000)
  norm_num [Dbl.toRat]

/-- C3, amended.  A `$pi$` or `$PI$` token (exact lower or upper case) is
rewritten during parsing into a Number token carrying
`std::to_string(M_PI)` = `"3.141593"` — the value 3.141593, with
precision lost to the six-digit formatting — and no entry is added to
the Variable Table; a mixed-case spelling such as `$Pi$` is not
recognized and becomes an ordinary table variable. -/
theorem C3_amended :
    to_string_f6 mPI = ("3.141593").toList ∧
    Except.map (fun st => (st.rpn, st.varTable))
        (init_with_expr initState (("$pi$").toList)) =
      Except.ok ([⟨to_string_f6 mPI, BitType.NUMBER⟩], []) ∧
    Except.map (fun st => (st.rpn, st.varTable))
        (init_with_expr initState (("$PI$").toList)) =
      Except.ok ([⟨to_string_f6 mPI, BitType.NUMBER⟩], []) ∧
    Except.map (fun st => st.varTable)
        (init_with_expr initState (("$Pi$").toList)) =
      Except.ok [(("Pi").toList, qZero)] :=
  ⟨rfl, rfl, rfl, rfl⟩

/-- C4, counterexample.  Parsing `$x$*$x$` leaves the Variable Table
with the key `x` twice — `m_handle_variable` appends unconditionally —
falsifying the keys-unique invariant (and the second entry is never
referenced, both postfix tokens resolving to slot 0). -/
theorem C4_counterexample :
    Except.map (fun st => st.varTable)
        (init_with_expr initState (("$x$*$x$").toList)) =
      Except.ok [(("x").toList, qZero), (("x").toList, qZero)] ∧
    Except.map (fun st => st.rpn)
        (init_with_expr initState (("$x$*$x$").toList)) =
      Except.ok [⟨("0").toList, BitType.VARIABLE⟩, ⟨("0").toList, BitType.VARIABLE⟩,
        ⟨("*").toList, BitType.OPERATOR⟩] ∧
    ¬ ([(("x").toList, qZero), (("x").toList, qZero)].map Prod.fst).Nodup :=
  ⟨rfl, rfl, by decide⟩

/-- C4, amended.  After a successful parse on a fresh object, the
Variable Table holds one `(name, 0.0)` entry per occurrence of each
non-`pi` Variable token, in occurrence order — so a name occurring k
times appears k times and keys need not be unique. -/
theorem C4_amended (input : Str) (st : InterpState)
    (h : init_with_expr initState input = Except.ok st) :
    st.varTable = varsOf (rawBits input) := by
  have hv := init_ok_varTable initState st input h
  simpa [initState] using hv

/-- Witness for C4: the amended characterization applied to the parse of
`$x$*$x$`. -/
theorem C4_amended_witness :
    stDupVar.varTable = varsOf (rawBits (("$x$*$x$").toList)) :=
  C4_amended (("$x$*$x$").toList) stDupVar rfl

/-- C5, counterexample.  The tag-resolution pass is not idempotent: a
resolved variable tag `0` is looked up again as a *name*, misses the
table, and the unsigned `index - 1` wraps to `18446744073709551615`;
a resolved function tag `3` is no longer a known function name, so the
second run throws `UNKNOWN_EXPRESSION("3")`. -/
theorem C5_counterexample :
    (m_validate_rpn [(("x").toList, qZero)]
        [⟨("x").toList, BitType.VARIABLE⟩]).bind
        (m_validate_rpn [(("x").toList, qZero)]) ≠
      m_validate_rpn [(("x").toList, qZero)] [⟨("x").toList, BitType.VARIABLE⟩] ∧
    m_validate_rpn [(("x").toList, qZero)] [⟨("x").toList, BitType.VARIABLE⟩] =
      Except.ok [⟨("0").toList, BitType.VARIABLE⟩] ∧
    m_validate_rpn [(("x").toList, qZero)] [⟨("0").toList, BitType.VARIABLE⟩] =
      Except.ok [⟨("18446744073709551615").toList, BitType.VARIABLE⟩] ∧
    (m_validate_rpn [] [⟨("sin").toList, BitType.FUNCTION⟩]).bind
        (m_validate_rpn []) =
      Except.error (Err.unknownExpr (("3").toList)) ∧
    m_validate_rpn [] [⟨("sin").toList, BitType.FUNCTION⟩] =
      Except.ok [⟨("3").toList, BitType.FUNCTION⟩] :=
  ⟨by decide, rfl, rfl, rfl, rfl⟩

/-- C5, amended.  The pass is a deterministic function of the program
and the table, but it is not idempotent in general: on a second run,
resolved tags are looked up again as names, which can change a variable
tag and throws `UNKNOWN_EXPRESSION` on any resolved function tag (the
counterexample exhibits both).  On programs containing no Variable and
no Function token — a sufficient condition — the pass merely checks for
leftover `(` and copies the program, so there a second run reproduces
the first. -/
theorem C5_amended (vt : VarTable) (rpn : List InputBit)
    (h : ∀ b ∈ rpn, b.second ≠ BitType.VARIABLE ∧ b.second ≠ BitType.FUNCTION) :
    (m_validate_rpn vt rpn).bind (m_validate_rpn vt) = m_validate_rpn vt rpn := by
  rcases validAux_plain vt rpn [] false [] h with hl | ⟨hr, _⟩
  · unfold m_validate_rpn
    rw [hl]
    rfl
  · have hv : m_validate_rpn vt rpn = Except.ok rpn := by
      unfold m_validate_rpn
      rw [hr]
      simp
    rw [hv]
    show m_validate_rpn vt rpn = Except.ok rpn
    exact hv

/-- Witness for C5: idempotence on the tag-free program `1 1 +`. -/
theorem C5_amended_witness :
    (m_validate_rpn [] [⟨("1").toList, BitType.NUMBER⟩,
        ⟨("1").toList, BitType.NUMBER⟩, ⟨("+").toList, BitType.OPERATOR⟩]).bind
        (m_validate_rpn []) =
      m_validate_rpn [] [⟨("1").toList, BitType.NUMBER⟩,
        ⟨("1").toList, BitType.NUMBER⟩, ⟨("+").toList, BitType.OPERATOR⟩] :=
  C5_amended [] _ (by decide)

/-- C6, counterexample.  `atan2(1)` is recognized (the postfix program
tags it with enum ordinal 10) and parsing succeeds — but evaluation does
not fail: `m_calc_function` has no ATAN2 case, its default branch
returns 0.0, and the expression evaluates to the numeric result 0. -/
theorem C6_counterexample :
    Except.map (fun st => st.rpn)
        (init_with_expr initState (("atan2(1)").toList)) =
      Except.ok [⟨("1").toList, BitType.NUMBER⟩,
        ⟨("10").toList, BitType.FUNCTION⟩] ∧
    Except.map Dbl.toRat
        ((init_with_expr initState (("atan2(1)").toList)).bind (calculate tfZero)) =
      Except.ok (0 : ℚ) := by
  refine ⟨rfl, ?_⟩
  have h : (init_with_expr initState (("atan2(1)").toList)).bind (calculate tfZero) =
      Except.ok qZero := rfl
  rw [h]
  show Except.ok (Dbl.toRat qZero) = Except.ok (0 : ℚ)
  norm_num [Dbl.toRat, qZero]

/-- C6, amended.  `atan2`/`ATAN2` are in the enumeration (ordinal 10)
and parsing succeeds, but evaluating an expression containing them does
not fail: the missing switch case makes `m_calc_function` return 0.0
for ordinal 10 under every libm implementation, so the expression
yields the numeric result 0. -/
theorem C6_amended :
    m_isFunction (("atan2").toList) = 10 ∧
    m_isFunction (("ATAN2").toList) = 10 ∧
    (∀ (F : TransFuns) (v : Dbl), m_calc_function F v 10 = qZero) ∧
    (∀ F : TransFuns,
      Except.map Dbl.toRat
          ((init_with_expr initState (("ATAN2(1)").toList)).bind (calculate F)) =
        Except.ok (0 : ℚ)) := by
  refine ⟨rfl, rfl, fun F v => rfl, fun F => ?_⟩
  have h : (init_with_expr initState (("ATAN2(1)").toList)).bind (calculate F) =
      Except.ok qZero := rfl
  rw [h]
  show Except.ok (Dbl.toRat qZero) = Except.ok (0 : ℚ)
  norm_num [Dbl.toRat, qZero]

/-- C7, counterexample.  `5%3` does not parse: `m_isOperator`'s
character dispatch has no `%` case, so `%3` is lexed as a Function
token and validation throws `UNKNOWN_EXPRESSION("%3")` — parsing and
evaluating `5%3` does not succeed with 2. -/
theorem C7_counterexample :
    rawBits (("5%3").toList) =
      [⟨("5").toList, BitType.NUMBER⟩, ⟨("%3").toList, BitType.FUNCTION⟩] ∧
    init_with_expr initState (("5%3").toList) =
      Except.error (Err.unknownExpr (("%3").toList)) :=
  ⟨rfl, rfl⟩

/-- C7, amended.  `%` is accepted by the precedence table (level 3, like
`*` and `/`) and by the calculator (`fmod`, so `5 % 3 = 2` there), but
the tokenizer's character-class dispatch does not classify it as an
Operator: a `%` in the input starts a Function lexeme and parsing fails
with `UNKNOWN_EXPRESSION`, so `"5%3"` never reaches evaluation. -/
theorem C7_amended :
    m_precedence ⟨("%").toList, BitType.OPERATOR⟩ = 3 ∧
    Dbl.toRat (m_calc_operator ⟨5, 1⟩ ⟨3, 1⟩ (("%").toList)) = 2 ∧
    m_isOperator (("5%3").toList) 1 = false ∧
    rawBits (("5%3").toList) =
      [⟨("5").toList, BitType.NUMBER⟩, ⟨("%3").toList, BitType.FUNCTION⟩] ∧
    init_with_expr initState (("5%3").toList) =
      Except.error (Err.unknownExpr (("%3").toList)) := by
  refine ⟨rfl, ?_, rfl, rfl, rfl⟩
  have h : m_calc_operator ⟨5, 1⟩ ⟨3, 1⟩ (("%").toList) = ⟨2, 1⟩ := rfl
  rw [h]
  show Dbl.toRat ⟨2, 1⟩ = 2
  norm_num [Dbl.toRat]

/-- C8.  At every in-bounds position holding `-` in the
whitespace-stripped expression, the tokenizer classifies the `-` as part
of a number exactly when the position is first, the previous character
is `(`, or the previous position is itself classified as an Operator by
the same (recursive) rule; and at such a position the number/operator
classifications are each other's complement. -/
theorem C8_unary_minus_rule (s : Str) (i : Nat) (h : i < s.length)
    (hc : charAt s i = '-') :
    (m_isNumber s i = true ↔
      (i = 0 ∨ charAt s (i - 1) = '(' ∨ m_isOperator s (i - 1) = true)) ∧
    m_isOperator s i = !(m_isNumber s i) := by
  cases i with
  | zero =>
    have hn : m_isNumber s 0 = true := by
      unfold m_isNumber
      rw [if_pos h]
      dsimp only
      rw [hc]
      rfl
    have ho : m_isOperator s 0 = false := by
      unfold m_isOperator
      rw [if_pos h]
      dsimp only
      rw [hc]
      rfl
    rw [hn, ho]
    simp
  | succ j =>
    have hn : m_isNumber s (j + 1) =
        (decide (charAt s j = '(') || m_isOperator s j) := by
      unfold m_isNumber
      rw [if_pos h]
      dsimp only
      rw [hc]
      rfl
    have ho : m_isOperator s (j + 1) =
        !(decide (charAt s j = '(') || m_isOperator s j) := by
      simp only [m_isOperator]
      rw [if_pos h]
      rw [hc]
      by_cases h1 : charAt s j = '('
      · simp [h1]
      · by_cases h2 : m_isOperator s j
        · simp [h1, h2]
        · simp [h1, h2]
    constructor
    · rw [hn]
      simp [Nat.succ_ne_zero]
    · rw [hn, ho]

/-- Witness for C8: the `-` of `(-1` at index 1, preceded by `(`, is
classified as a number and not as an operator. -/
theorem C8_witness :
    (m_isNumber (("(-1").toList) 1 = true ↔
      (1 = 0 ∨ charAt (("(-1").toList) 0 = '(' ∨
        m_isOperator (("(-1").toList) 0 = true)) ∧
    m_isOperator (("(-1").toList) 1 = !(m_isNumber (("(-1").toList) 1) :=
  C8_unary_minus_rule (("(-1").toList) 1 (by decide) (by decide)

/-- C9, counterexample.  Re-initializing with `3*4` after `1+2` rebuilds
the postfix program `1 2 3 4 * +`: the first expression's `+` token
comes after the second expression's tokens, so the rebuilt program is
not the first expression's tokens followed by the second's (which would
be `1 2 + 3 4 *`). -/
theorem C9_counterexample :
    Except.map (fun st => st.rpn)
        ((init_with_expr initState (("1+2").toList)).bind
          (fun st => init_with_expr st (("3*4").toList))) =
      Except.ok [⟨("1").toList, BitType.NUMBER⟩, ⟨("2").toList, BitType.NUMBER⟩,
        ⟨("3").toList, BitType.NUMBER⟩, ⟨("4").toList, BitType.NUMBER⟩,
        ⟨("*").toList, BitType.OPERATOR⟩, ⟨("+").toList, BitType.OPERATOR⟩] ∧
    Except.map (fun st => st.rpn) (init_with_expr initState (("1+2").toList)) =
      Except.ok [⟨("1").toList, BitType.NUMBER⟩, ⟨("2").toList, BitType.NUMBER⟩,
        ⟨("+").toList, BitType.OPERATOR⟩] ∧
    Except.map (fun st => st.rpn) (init_with_expr initState (("3*4").toList)) =
      Except.ok [⟨("3").toList, BitType.NUMBER⟩, ⟨("4").toList, BitType.NUMBER⟩,
        ⟨("*").toList, BitType.OPERATOR⟩] ∧
    ([⟨("1").toList, BitType.NUMBER⟩, ⟨("2").toList, BitType.NUMBER⟩,
        ⟨("3").toList, BitType.NUMBER⟩, ⟨("4").toList, BitType.NUMBER⟩,
        ⟨("*").toList, BitType.OPERATOR⟩, ⟨("+").toList, BitType.OPERATOR⟩] :
          List InputBit) ≠
      [⟨("1").toList, BitType.NUMBER⟩, ⟨("2").toList, BitType.NUMBER⟩,
        ⟨("+").toList, BitType.OPERATOR⟩] ++
      [⟨("3").toList, BitType.NUMBER⟩, ⟨("4").toList, BitType.NUMBER⟩,
        ⟨("*").toList, BitType.OPERATOR⟩] :=
  ⟨rfl, rfl, rfl, by decide⟩

/-- C9, amended.  A second `init_with_expr` is not a clean restart: the
token vector is never cleared, so afterwards it holds the first
expression's tokens (pi-rewritten) followed by the second's, the
variable table likewise accumulates entries for the bits of both
expressions, and the postfix program is rebuilt from the concatenated
token sequence — whereby tokens of the two expressions may interleave,
as the counterexample's `1 2 3 4 * +` shows. -/
theorem C9_amended (st st' : InterpState) (input : Str)
    (h : init_with_expr st input = Except.ok st') :
    st'.inputBits = (st.inputBits ++ rawBits input).map piRW ∧
    st'.varTable = st.varTable ++ varsOf (st.inputBits ++ rawBits input) :=
  ⟨init_ok_inputBits st st' input h, init_ok_varTable st st' input h⟩

/-- Witness for C9: the accumulation equations at the concrete re-parse
of `3*4` over the state left by `1+2`. -/
theorem C9_amended_witness :
    stReinit.inputBits =
      (stOnePlusTwo.inputBits ++ rawBits (("3*4").toList)).map piRW ∧
    stReinit.varTable =
      stOnePlusTwo.varTable ++
        varsOf (stOnePlusTwo.inputBits ++ rawBits (("3*4").toList)) :=
  C9_amended stOnePlusTwo stReinit (("3*4").toList) rfl

/-- C10.  An unterminated variable marker is not an error: `$` followed
by a name with no closing `$` makes the extractor consume every
remaining character as the name and stop at the end of the input;
parsing succeeds, and the whole parse result (tokens, postfix program,
variable table) is identical to that of the `$`-terminated spelling —
e.g. `$x` parses the same as `$x$`. -/
theorem C10_unterminated_marker (rest : Str) (hd : '$' ∉ rest)
    (hw : ∀ c ∈ rest, isWS c = false) :
    m_extract_variable ('$' :: rest) 0 = (rest, ('$' :: rest).length) ∧
    (init_with_expr initState ('$' :: rest)).isOk = true ∧
    Except.map (fun st => (st.inputBits, st.rpn, st.varTable))
        (init_with_expr initState ('$' :: rest)) =
      Except.map (fun st => (st.inputBits, st.rpn, st.varTable))
        (init_with_expr initState ('$' :: (rest ++ ['$']))) := by
  have hs1 : m_clear_whitespaces ('$' :: rest) = '$' :: rest := by
    apply strip_id_of_noWS
    intro c hc
    rcases List.mem_cons.mp hc with h1 | h1
    · subst h1; decide
    · exact hw c h1
  have hs2 : m_clear_whitespaces ('$' :: (rest ++ ['$'])) =
      '$' :: (rest ++ ['$']) := by
    apply strip_id_of_noWS
    intro c hc
    rcases List.mem_cons.mp hc with h1 | h1
    · subst h1; decide
    · rcases List.mem_append.mp h1 with h2 | h2
      · exact hw c h2
      · simp only [List.mem_singleton] at h2
        subst h2; decide
  have hb1 : rawBits ('$' :: rest) = [⟨rest, BitType.VARIABLE⟩] := by
    simp only [rawBits]
    rw [hs1]
    exact makeBits_var_only rest rest (extract_variable_unterminated rest hd)
  have hb2 : rawBits ('$' :: (rest ++ ['$'])) = [⟨rest, BitType.VARIABLE⟩] := by
    simp only [rawBits]
    rw [hs2]
    exact makeBits_var_only (rest ++ ['$']) rest
      (extract_variable_terminated rest hd)
  refine ⟨extract_variable_unterminated rest hd, ?_, ?_⟩
  · exact init_single_var_isOk _ rest (by rw [hs1]; simp) hb1
  · exact init_triple_of_bits_eq _ _ (by rw [hs1]; simp) (by rw [hs2]; simp)
      (hb1.trans hb2.symm)

/-- Witness for C10: `$x` parses, and parses the same as `$x$`. -/
theorem C10_witness :
    m_extract_variable ('$' :: ("x").toList) 0 =
      (("x").toList, ('$' :: ("x").toList).length) ∧
    (init_with_expr initState ('$' :: ("x").toList)).isOk = true ∧
    Except.map (fun st => (st.inputBits, st.rpn, st.varTable))
        (init_with_expr initState ('$' :: ("x").toList)) =
      Except.map (fun st => (st.inputBits, st.rpn, st.varTable))
        (init_with_expr initState ('$' :: (("x").toList ++ ['$']))) :=
  C10_unterminated_marker (("x").toList) (by decide) (by decide)
